import Mathlib

/-!
# Verification of the Hansard bot core (`src/main.py`)

Shallow embedding of the query-processing core of the bot: the query
normalizer (`extract_keywords`), sentence segmenter (`split_sentences`),
the sliding-window relevance scorer (`score_window` and the strict pass),
the per-speaker aggregation loop, the ranking/formatting step, and the
error-handling boundary of `search_theyworkforyou`.

Python strings are modelled as Lean `String`s over their code points;
`str.lower()` is modelled as ASCII lowering, `str.split()` as a
whitespace-run split that drops empty tokens, `str.strip(chars)` as
dropping the given characters from both ends.  Python dicts (which
preserve insertion order) are modelled as association lists where an
update keeps the key's position and a fresh key is appended.  External
collaborators (the DuckDuckGo context lookup, the AI summary, and the
HTTP transport) enter the model as explicit inputs; the outcome of the
`requests.get` / `.json()` pair is an `ApiOutcome` value and a raised
exception is an explicit `PyError`.
-/

/-- Python whitespace characters recognised by `str.split()` / `\s`. -/
def isPySpace (c : Char) : Bool :=
  c == ' ' || c == '\t' || c == '\n' || c == '\r' ||
  c == Char.ofNat 11 || c == Char.ofNat 12

/-- Model of Python `str.lower()` (ASCII case folding). -/
def pyLower (s : String) : String :=
  String.mk (s.data.map Char.toLower)

/-- Helper for `pySplit`: walk the characters, accumulating the current
token in reverse, emitting tokens at whitespace runs and dropping empty
tokens, exactly as Python `str.split()` with no argument does. -/
def pySplitGo : List Char → List Char → List String
  | [], [] => []
  | [], acc => [String.mk acc.reverse]
  | c :: rest, acc =>
    if isPySpace c then
      match acc with
      | [] => pySplitGo rest []
      | _ => String.mk acc.reverse :: pySplitGo rest []
    else pySplitGo rest (c :: acc)

/-- Model of Python `str.split()` (no argument): split on whitespace
runs, never producing empty tokens. -/
def pySplit (s : String) : List String :=
  pySplitGo s.data []

/-- Model of Python `str.strip(chars)`: remove characters of `cs` from
both ends. -/
def pyStrip (cs : List Char) (s : String) : String :=
  String.mk (((s.data.dropWhile (cs.contains ·)).reverse.dropWhile (cs.contains ·)).reverse)

/-- Model of Python `str.strip()` with no argument (whitespace). -/
def pyStripWS (s : String) : String :=
  String.mk (((s.data.dropWhile isPySpace).reverse.dropWhile isPySpace).reverse)

/-- Model of Python `s[:n]` on strings (first `n` code points). -/
def pyTake (n : Nat) (s : String) : String :=
  String.mk (s.data.take n)

/-- Model of Python `sep.join(l)`. -/
def pyJoin (sep : String) : List String → String
  | [] => ""
  | [x] => x
  | x :: xs => x ++ sep ++ pyJoin sep xs

/-- The punctuation characters stripped for the stop-word test:
`"?,.!"` in `main.py`. -/
def stripChars : List Char := ['?', ',', '.', '!']

/-- The fixed stop-word set of `extract_keywords` in `main.py`. -/
def stop_words : List String :=
  ["who", "spoke", "about", "the", "most", "in", "context", "of",
   "what", "did", "say", "regarding", "concerning", "a", "an", "and",
   "to", "for", "with", "by", "on", "is", "are", "was", "were"]

/-- The surviving tokens of `extract_keywords`: the whitespace split of
the lower-cased input, keeping a token iff its stripped, lower-cased
form is not a stop word (`[w for w in words if w.strip("?,.!").lower()
not in stop_words]`). -/
def keywords_of (text : String) : List String :=
  (pySplit (pyLower text)).filter
    (fun w => !(stop_words.contains (pyLower (pyStrip stripChars w))))

/-- `extract_keywords` from `main.py`: join surviving tokens with single
spaces; if none survive, return the input unchanged. -/
def extract_keywords (text : String) : String :=
  if keywords_of text = [] then text else pyJoin " " (keywords_of text)

/-- Sentence-terminal punctuation of the segmenter regex `[.!?]`. -/
def isTerminalChar (c : Char) : Bool :=
  c == '.' || c == '!' || c == '?'

mutual

/-- Helper for `split_sentences`: emits a sentence exactly when a
whitespace character is preceded by terminal punctuation, then hands the
rest to `splitSentencesSkip` to consume the whole whitespace run, as
`re.split(r'(?<=[.!?])\s+', text)` does. -/
def splitSentencesGo : List Char → List Char → List String
  | [], acc => [String.mk acc.reverse]
  | c :: rest, acc =>
    if isPySpace c && (match acc with | p :: _ => isTerminalChar p | [] => false) then
      String.mk acc.reverse :: splitSentencesSkip rest
    else
      splitSentencesGo rest (c :: acc)

/-- Consume the remainder of a separating whitespace run, then start the
next sentence. -/
def splitSentencesSkip : List Char → List String
  | [] => [""]
  | c :: rest =>
    if isPySpace c then splitSentencesSkip rest
    else splitSentencesGo rest [c]

end

/-- `split_sentences` from `main.py`:
`re.split(r'(?<=[.!?])\s+', text)`. -/
def split_sentences (s : String) : List String :=
  splitSentencesGo s.data []

/-- Boolean substring test, modelling Python `needle in hay` on strings. -/
def substrB (needle hay : List Char) : Bool :=
  hay.tails.any (fun t => needle.isPrefixOf t)

/-- `score_window` from `main.py` (closure inside
`search_theyworkforyou`): count, with multiplicity over the whitespace
split of the lower-cased keyword string, the terms occuring as
substrings of the lower-cased
`f"{debate_title} {text_window} {extra_context_title}"`. -/
def score_window (debate_title extra_context_title base_keywords text_window : String) : Nat :=
  let context := pyLower (debate_title ++ " " ++ text_window ++ " " ++ extra_context_title)
  let user_terms := pySplit (pyLower base_keywords)
  user_terms.countP (fun term => substrB term.data context.data)

/-- Second definition, following the claim's words rather than the
source: the number of DISTINCT keyword terms occurring as substrings of
the combined context. -/
def score_window_distinct (debate_title extra_context_title base_keywords text_window : String) : Nat :=
  let context := pyLower (debate_title ++ " " ++ text_window ++ " " ++ extra_context_title)
  ((pySplit (pyLower base_keywords)).dedup).countP (fun term => substrB term.data context.data)

/-- The spec's fractional presentation of the window score (§4.3): the
code's integer count divided by the number of keyword terms, defined as
0 when the keyword string has no terms. -/
def score_frac (debate_title extra_context_title base_keywords text_window : String) : ℚ :=
  let total := (pySplit (pyLower base_keywords)).length
  if total = 0 then 0
  else (score_window debate_title extra_context_title base_keywords text_window : ℚ) / (total : ℚ)

/-- The spec's `MatchTier` enum (§3).  The code's `debate_info` entries
carry a `"type"` field that only ever holds `"Strict"` or `"Loose"`; the
`Fuzzy` constructor exists in the spec's enum but is never produced by
`main.py`. -/
inductive MatchTier
  | Strict
  | Fuzzy
  | Loose
deriving DecidableEq, Repr

/-- Rank of a tier under the order Strict > Fuzzy > Loose. -/
def rank : MatchTier → Nat
  | .Strict => 2
  | .Fuzzy => 1
  | .Loose => 0

/-- Better of two tiers under Strict > Fuzzy > Loose. -/
def tmax (a b : MatchTier) : MatchTier :=
  if rank a < rank b then b else a

/-- Best tier of a list of tiers (`none` for the empty list). -/
def bestTier? (l : List MatchTier) : Option MatchTier :=
  l.foldl (fun acc t => some (acc.elim t (fun b => tmax b t))) none

/-- The optional `speaker` sub-structure of an API row; each field
models a dict key that may be absent. -/
structure Speaker where
  first_name : Option String
  last_name : Option String
  party : Option String
  constituency : Option String
deriving DecidableEq, Repr

/-- One row of the API's `rows` array, as consumed by the loop in
`search_theyworkforyou`.  `speaker = none` covers both an absent
`speaker` key and a non-dict value (the `isinstance` test);
`parent_body` is `parent["body"]` when `parent` is a dict with that key. -/
structure Item where
  speaker : Option Speaker
  body : Option String
  parent_body : Option String
  listurl : Option String
deriving DecidableEq, Repr

/-- The stored representative payload per speaker: the value of the
code's `debate_info[speaker_name]` dict. -/
structure Payload where
  link : String
  snippet : String
  title : String
  type : MatchTier
  party : String
  constituency : String
deriving DecidableEq, Repr

/-- The mutable maps built per query: `strict_counts`, `loose_counts`
and `debate_info`, as insertion-ordered association lists. -/
structure AggState where
  strict_counts : List (String × Nat)
  loose_counts : List (String × Nat)
  debate_info : List (String × Payload)
deriving DecidableEq, Repr

/-- The fresh state at the start of one query. -/
def initState : AggState := ⟨[], [], []⟩

/-- Association-list lookup, modelling `d[k]` / `k in d`. -/
def alGet {α : Type} (l : List (String × α)) (k : String) : Option α :=
  (l.find? (fun p => p.1 == k)).map (·.2)

/-- Association-list update, modelling `d[k] = v` on a Python dict: an
existing key keeps its position, a fresh key is appended. -/
def alSet {α : Type} (l : List (String × α)) (k : String) (v : α) : List (String × α) :=
  match l with
  | [] => [(k, v)]
  | p :: rest => if p.1 == k then (k, v) :: rest else p :: alSet rest k v

/-- `if name in d: d[name] += 1 else: d[name] = 1`. -/
def bump (l : List (String × Nat)) (k : String) : List (String × Nat) :=
  match alGet l k with
  | some n => alSet l k (n + 1)
  | none => alSet l k 1

/-- The count stored for a key (0 when absent). -/
def countOf (l : List (String × Nat)) (k : String) : Nat :=
  (alGet l k).getD 0

/-- Speaker-name resolution of the loop: `f"{first} {last}".strip()`
when `speaker` is a dict, skipping (`none`) when the result is empty or
the `"Unknown MP"` placeholder. -/
def resolveName (it : Item) : Option String :=
  match it.speaker with
  | none => none
  | some sp =>
    let n := pyStripWS ((sp.first_name.getD "") ++ " " ++ (sp.last_name.getD ""))
    if n = "" ∨ n = "Unknown MP" then none else some n

/-- `item['speaker'].get('party', 'Unknown Party')`. -/
def itemParty (it : Item) : String :=
  match it.speaker with
  | some sp => sp.party.getD "Unknown Party"
  | none => "Unknown Party"

/-- `item['speaker'].get('constituency', '')`. -/
def itemConstituency (it : Item) : String :=
  match it.speaker with
  | some sp => sp.constituency.getD ""
  | none => ""

/-- The strict pass of the loop: when the body has at most 3 sentences,
check the whole body; otherwise scan 3-sentence windows left to right
and stop at the first one whose score equals the number of keyword
terms.  Returns the snippet stored for a strict match (`window + "..."`
for a true window, the body itself otherwise), `none` when the record
is not strict. -/
def strictPass (base_keywords debate_title extra body : String) : Option String :=
  let sentences := split_sentences body
  let total := (pySplit (pyLower base_keywords)).length
  if sentences.length ≤ 3 then
    if score_window debate_title extra base_keywords body = total then some body else none
  else
    (List.range (sentences.length - 2)).findSome? (fun i =>
      let window := pyJoin " " ((sentences.drop i).take 3)
      if score_window debate_title extra base_keywords window = total then
        some (window ++ "...")
      else none)

/-- The candidate windows of the scorer, for stating claims: the whole
body when it has at most 3 sentences, otherwise every run of 3
consecutive sentences. -/
def candidate_windows (body : String) : List String :=
  let sentences := split_sentences body
  if sentences.length ≤ 3 then [body]
  else (List.range (sentences.length - 2)).map (fun i => pyJoin " " ((sentences.drop i).take 3))

/-- The tier the loop assigns to a record: Strict when the strict pass
succeeds, Loose otherwise (there is no Fuzzy pass in `main.py`). -/
def itemTier (kw extra : String) (it : Item) : MatchTier :=
  if (strictPass kw (it.parent_body.getD "") extra (it.body.getD "")).isSome then
    MatchTier.Strict
  else MatchTier.Loose

/-- One iteration of the `for item in data["rows"]` loop: resolve the
speaker, run the strict pass, increment exactly one tier counter, and
update `debate_info` (a strict record replaces a stored Loose payload or
fills a fresh slot; a loose record only fills a fresh slot). -/
def processItem (kw extra : String) (st : AggState) (it : Item) : AggState :=
  match resolveName it with
  | none => st
  | some speaker_name =>
    let party := itemParty it
    let constituency := itemConstituency it
    let body_text := it.body.getD ""
    let debate_title := it.parent_body.getD ""
    let list_url := it.listurl.getD ""
    match strictPass kw debate_title extra body_text with
    | some best_snippet =>
      let sc := bump st.strict_counts speaker_name
      let payload : Payload :=
        ⟨"https://www.theyworkforyou.com" ++ list_url, best_snippet, debate_title,
         MatchTier.Strict, party, constituency⟩
      let di :=
        match alGet st.debate_info speaker_name with
        | none => alSet st.debate_info speaker_name payload
        | some p =>
          if p.type = MatchTier.Loose then alSet st.debate_info speaker_name payload
          else st.debate_info
      ⟨sc, st.loose_counts, di⟩
    | none =>
      let lc := bump st.loose_counts speaker_name
      let payload : Payload :=
        ⟨"https://www.theyworkforyou.com" ++ list_url, pyTake 200 body_text ++ "...",
         debate_title, MatchTier.Loose, party, constituency⟩
      let di :=
        match alGet st.debate_info speaker_name with
        | none => alSet st.debate_info speaker_name payload
        | some _ => st.debate_info
      ⟨st.strict_counts, lc, di⟩

/-- The whole aggregation loop over the API rows. -/
def processAll (kw extra : String) (items : List Item) : AggState :=
  items.foldl (processItem kw extra) initState

/-- Stable descending insertion into a list already sorted by count
descending: skip strictly greater counts, stop at the first count less
than or equal (the inserted element came later in the input).  Together
with `isortDesc` this is the unique stable descending sort, the
behaviour of Python `sorted(..., key=count, reverse=True)`. -/
def insDesc (x : String × Nat) : List (String × Nat) → List (String × Nat)
  | [] => [x]
  | y :: ys => if x.2 < y.2 then y :: insDesc x ys else x :: y :: ys

/-- Stable sort by count descending (Python `sorted` with
`reverse=True` on the `(speaker, count)` pairs). -/
def isortDesc : List (String × Nat) → List (String × Nat)
  | [] => []
  | x :: xs => insDesc x (isortDesc xs)

/-- Lines 227–235 of `main.py`: pick the strict tier when it has any
speaker, else the loose tier, else no result; sort the chosen tier's
pairs by count descending (stable) and keep the first 5. -/
def decideResults (strict loose : List (String × Nat)) :
    Option (List (String × Nat) × MatchTier) :=
  if strict ≠ [] then some ((isortDesc strict).take 5, MatchTier.Strict)
  else if loose ≠ [] then some ((isortDesc loose).take 5, MatchTier.Loose)
  else none

/-- A single-quote character as a string (used throughout the rendered
messages). -/
def sglq : String := (Char.ofNat 39).toString

/-- Model of `html.escape` (default `quote=True`): `&`, `<`, `>`, `"`
and the single quote, replaced in that order. -/
def html_escape (s : String) : String :=
  ((((s.replace "&" "&amp;").replace "<" "&lt;").replace ">" "&gt;").replace
      "\"" "&quot;").replace sglq "&#x27;"

/-- UTF-8 bytes of one code point. -/
def utf8Bytes (c : Char) : List Nat :=
  let n := c.toNat
  if n < 0x80 then [n]
  else if n < 0x800 then [0xC0 + n / 0x40, 0x80 + n % 0x40]
  else if n < 0x10000 then
    [0xE0 + n / 0x1000, 0x80 + (n / 0x40) % 0x40, 0x80 + n % 0x40]
  else
    [0xF0 + n / 0x40000, 0x80 + (n / 0x1000) % 0x40, 0x80 + (n / 0x40) % 0x40,
     0x80 + n % 0x40]

/-- Upper-case hexadecimal digit. -/
def hexDigitChar (n : Nat) : Char :=
  if n < 10 then Char.ofNat (48 + n) else Char.ofNat (55 + n)

/-- Characters `requests.utils.quote` leaves unescaped (unreserved plus
the default `safe='/'`). -/
def isUrlSafe (c : Char) : Bool :=
  c.isAlphanum || c == '_' || c == '.' || c == '-' || c == '~' || c == '/'

/-- Model of `requests.utils.quote`: percent-encode the UTF-8 bytes of
every character outside the safe set. -/
def pyQuote (s : String) : String :=
  String.join (s.data.map (fun c =>
    if isUrlSafe c then c.toString
    else String.join ((utf8Bytes c).map (fun b =>
      "%" ++ (hexDigitChar (b / 16)).toString ++ (hexDigitChar (b % 16)).toString))))

/-- The message returned when `rows` is missing or empty (line 137). -/
def noMentionsMsg (web_context_msg base_keywords : String) : String :=
  web_context_msg ++ "I searched the records for " ++ sglq ++ base_keywords ++ sglq ++
    ", but found no recent mentions."

/-- The message returned when both tiers end up empty (line 235). -/
def noMatchesMsg (web_context_msg base_keywords : String) : String :=
  web_context_msg ++ "I searched for " ++ sglq ++ base_keywords ++ sglq ++
    ", but found no matches even with loose filtering."

/-- The catch-all apology of the `except Exception` handler (line 293). -/
def genericApology : String := "⚠️ An error occurred while consulting the archives."

/-- The kinds of Python exception the query path can see; all of them
are subclasses of `Exception` and so are caught by the handler. -/
inductive PyError
  | timeout
  | connectionError
  | jsonDecode
  | indexError
  | other
deriving DecidableEq, Repr

/-- Outcome of the `requests.get` / `response.json()` pair: either some
exception was raised (timeout, connection failure, malformed JSON), or a
parsed object whose `rows` key is absent (`none`) or holds a list. -/
inductive ApiOutcome
  | raises (e : PyError)
  | ok (rows : Option (List Item))
deriving DecidableEq, Repr

/-- The arguments of the outbound search-API call.  `main.py` passes
`params={key, search, output, num}` and no `timeout` argument, so the
`requests` default of `None` (wait indefinitely) applies. -/
structure HttpRequest where
  url : String
  key : Option String
  search : String
  output : String
  num : Nat
  timeout : Option Nat
deriving DecidableEq, Repr

/-- The request `search_theyworkforyou` builds at lines 124–133:
no timeout argument is supplied. -/
def twfyRequest (key : Option String) (base_keywords : String) : HttpRequest :=
  { url := "https://www.theyworkforyou.com/api/getHansard"
    key := key
    search := base_keywords
    output := "js"
    num := 50
    timeout := none }

/-- Everything one invocation of `search_theyworkforyou` consumes: the
configured credential, the raw user query, the results of the two
external DuckDuckGo collaborators (already-absorbed failures arrive as
empty strings), and the outcome of the search-API call. -/
structure QueryArgs where
  cfg_key : Option String
  raw_query : String
  web_context_msg : String
  extra_context_title : String
  outcome : ApiOutcome
  ai_summary : String
deriving DecidableEq, Repr

/-- The search-API request one query attempt issues.  The code reaches
`requests.get` unconditionally (there is no credential check on the
query path), so the request is always made. -/
def attemptedRequest (a : QueryArgs) : Option HttpRequest :=
  some (twfyRequest a.cfg_key (extract_keywords a.raw_query))

/-- One rendered per-speaker block of the result message (lines
264–287). -/
def speakerBlock (di : List (String × Payload)) (rank_no : Nat)
    (speaker : String) (count : Nat) : String :=
  let info := alGet di speaker
  let link := (info.map (·.link)).getD ""
  let snippet0 := (info.map (·.snippet)).getD "No preview"
  let title := (info.map (·.title)).getD "Unknown Debate"
  let party := (info.map (·.party)).getD "Unknown"
  let snippet := if snippet0.length > 150 then pyTake 150 snippet0 ++ "..." else snippet0
  let safe_speaker := html_escape speaker
  let safe_link := html_escape link
  let safe_snippet := html_escape snippet
  let safe_title := html_escape title
  let safe_party := html_escape party
  let google_link :=
    "https://www.google.com/search?q=" ++ pyQuote (title ++ " UK Parliament")
  toString rank_no ++ ". <b>" ++ safe_speaker ++ "</b> (" ++ safe_party ++ ") (" ++
    toString count ++ ")\n" ++
  "  📂 <i>" ++ safe_title ++ "</i> | <a href=" ++ sglq ++ google_link ++ sglq ++
    ">🌍 Context</a>\n" ++
  "  💬 <i>\"" ++ safe_snippet ++ "\"</i>\n" ++
  "  <a href=" ++ sglq ++ safe_link ++ sglq ++ ">Read Speech</a>\n\n"

/-- The rendering loop over the ranked speakers, with the 1-based rank
counter. -/
def renderLoopGo (di : List (String × Payload)) : Nat → List (String × Nat) → String
  | _, [] => ""
  | r, (s, c) :: rest => speakerBlock di r s c ++ renderLoopGo di (r + 1) rest

/-- The Strict-tier header (lines 256–258). -/
def strictHeader (safe_top_mp safe_query : String) (top_count : Nat) : String :=
  "🏆 <b>" ++ safe_top_mp ++ "</b> is the leading voice on " ++ sglq ++ "<i>" ++
    safe_query ++ "</i>" ++ sglq ++ ", with " ++ toString top_count ++
    " verified mentions.\n\n" ++ "<b>Top Speakers & Context:</b>\n"

/-- The Loose-tier header (lines 259–261). -/
def looseHeader (safe_top_mp safe_query : String) (top_count : Nat) : String :=
  "⚠️ <b>Note:</b> Exact context not found. Showing general mentions for " ++ sglq ++
    "<i>" ++ safe_query ++ "</i>" ++ sglq ++ ".\n" ++
  "🏆 <b>" ++ safe_top_mp ++ "</b> has " ++ toString top_count ++ " mentions.\n\n"

/-- Lines 227–289: decide the tier, then render.  Indexing
`sorted_speakers[0]` on an empty list would raise `IndexError`, caught
by the enclosing handler; the AI summary is an external input (empty on
failure), preferred over the web-context block when non-empty. -/
def decide_and_render (web_context_msg base_keywords ai_summary : String)
    (di : List (String × Payload)) (strict loose : List (String × Nat)) :
    Except PyError String :=
  match decideResults strict loose with
  | none => Except.ok (noMatchesMsg web_context_msg base_keywords)
  | some (sorted_speakers, result_type) =>
    match sorted_speakers with
    | [] => Except.error PyError.indexError
    | (top_mp, top_count) :: _ =>
      let safe_query := html_escape base_keywords
      let safe_top_mp := html_escape top_mp
      let message := if ai_summary ≠ "" then ai_summary else web_context_msg
      let header :=
        if result_type = MatchTier.Strict then strictHeader safe_top_mp safe_query top_count
        else looseHeader safe_top_mp safe_query top_count
      Except.ok (message ++ header ++ renderLoopGo di 1 sorted_speakers)

/-- The body of the `try` block of `search_theyworkforyou` (lines
132–289), with every raise surfaced as `Except.error`. -/
def search_body (a : QueryArgs) : Except PyError String :=
  let base_keywords := extract_keywords a.raw_query
  match a.outcome with
  | ApiOutcome.raises e => Except.error e
  | ApiOutcome.ok none => Except.ok (noMentionsMsg a.web_context_msg base_keywords)
  | ApiOutcome.ok (some rows) =>
    if rows.length = 0 then Except.ok (noMentionsMsg a.web_context_msg base_keywords)
    else
      let st := processAll base_keywords a.extra_context_title rows
      decide_and_render a.web_context_msg base_keywords a.ai_summary
        st.debate_info st.strict_counts st.loose_counts

/-- `search_theyworkforyou` as seen by the caller: the `try`/`except`
boundary maps every raised exception to the fixed apology string. -/
def search_theyworkforyou (a : QueryArgs) : String :=
  match search_body a with
  | Except.ok s => s
  | Except.error _ => genericApology

/-! ## Concrete inputs used by counterexamples and witnesses -/

/-- A record that is strict against the keyword string `"tax"`. -/
def c1WitnessItem : Item :=
  ⟨some ⟨some "Ada", some "Lovelace", some "Ind", some "Westminster"⟩,
   some "We must fix the tax system.", some "Tax Debate", some "/debates/1"⟩

/-- A record processed against an empty query. -/
def c10Item : Item :=
  ⟨some ⟨some "Grace", some "Hopper", none, none⟩, some "Point of order.", none, none⟩

/-- A record whose single-sentence body contains `"tax"` but not
`"brexit"`: against the keyword string `"tax brexit"` its window score
is 1 of 2 terms, i.e. the fraction 1/2. -/
def c1Item : Item :=
  ⟨some ⟨some "Jo", some "Smith", none, none⟩, some "I support the tax.", none, none⟩

/-- A loose record for speaker `"Ada Lovelace"` (no `"tax"` in the
body). -/
def looseItemA : Item :=
  ⟨some ⟨some "Ada", some "Lovelace", some "Ind", none⟩,
   some "We discussed budgets.", none, some "/d/1"⟩

/-- A strict record for the same speaker against the keyword `"tax"`. -/
def strictItemA : Item :=
  ⟨some ⟨some "Ada", some "Lovelace", some "Ind", none⟩,
   some "We must fix the tax system.", some "Tax Debate", some "/d/2"⟩

/-- The payload stored after processing `looseItemA` alone. -/
def pLooseA : Payload :=
  ⟨"https://www.theyworkforyou.com/d/1", "We discussed budgets....", "",
   MatchTier.Loose, "Ind", ""⟩

/-- The payload stored after `looseItemA` then `strictItemA` (the Loose
payload upgraded to Strict). -/
def pStrictA : Payload :=
  ⟨"https://www.theyworkforyou.com/d/2", "We must fix the tax system.", "Tax Debate",
   MatchTier.Strict, "Ind", ""⟩

/-- A query attempt that times out: the credential is configured, the
search-API call raises a timeout. -/
def c7TimeoutArgs : QueryArgs :=
  ⟨some "KEY", "tax", "", "", ApiOutcome.raises PyError.timeout, ""⟩

/-- The same query attempt failing with a connection error instead. -/
def c7ConnArgs : QueryArgs :=
  ⟨some "KEY", "tax", "", "", ApiOutcome.raises PyError.connectionError, ""⟩

/-- A query attempt with the search-API credential absent and an API
response with an empty `rows` array. -/
def c8Args : QueryArgs :=
  ⟨none, "tax", "", "", ApiOutcome.ok (some []), ""⟩

/-! ## Helper lemmas -/

theorem pySplitGo_ne_nil : ∀ (cs acc : List Char), ∀ w ∈ pySplitGo cs acc, w ≠ "" := by
  intro cs
  induction cs with
  | nil =>
    intro acc w hw
    cases acc with
    | nil => simp [pySplitGo] at hw
    | cons a as =>
      simp only [pySplitGo, List.mem_singleton] at hw
      subst hw
      intro h
      have := congrArg String.data h
      simp at this
  | cons c rest ih =>
    intro acc w hw
    simp only [pySplitGo] at hw
    split at hw
    · cases acc with
      | nil => exact ih [] w hw
      | cons a as =>
        simp only [List.mem_cons] at hw
        rcases hw with hw | hw
        · subst hw
          intro h
          have := congrArg String.data h
          simp at this
        · exact ih [] w hw
    · exact ih (c :: acc) w hw

theorem pySplit_ne_nil (s : String) : ∀ w ∈ pySplit s, w ≠ "" :=
  pySplitGo_ne_nil s.data []

theorem string_length_pos_of_ne_empty (s : String) (h : s ≠ "") : 0 < s.length := by
  cases s with
  | mk d =>
    cases d with
    | nil => exact absurd rfl h
    | cons c cs => simp [String.length]

theorem pyJoin_space_ne_empty : ∀ (x : String) (xs : List String), x ≠ "" →
    pyJoin " " (x :: xs) ≠ "" := by
  intro x xs hx
  cases xs with
  | nil => simpa [pyJoin] using hx
  | cons y ys =>
    simp only [pyJoin]
    intro h
    have hlen := congrArg String.length h
    simp only [String.length_append, String.length_empty] at hlen
    have hx0 : 0 < x.length := string_length_pos_of_ne_empty x hx
    omega

theorem alGet_alSet_self {α : Type} : ∀ (l : List (String × α)) (k : String) (v : α),
    alGet (alSet l k v) k = some v := by
  intro l k v
  induction l with
  | nil => simp [alGet, alSet, List.find?]
  | cons p rest ih =>
    simp only [alSet]
    split
    · simp [alGet, List.find?]
    · rename_i hpk
      simp only [alGet, List.find?, hpk]
      exact ih

theorem alGet_alSet_ne {α : Type} : ∀ (l : List (String × α)) (k : String) (v : α)
    (k' : String), k ≠ k' → alGet (alSet l k v) k' = alGet l k' := by
  intro l k v k' hne
  induction l with
  | nil =>
    have : (k == k') = false := by simpa using hne
    simp [alGet, alSet, List.find?, this]
  | cons p rest ih =>
    simp only [alSet]
    split
    · rename_i hpk
      have hk : (k == k') = false := by simpa using hne
      have hp : p.1 = k := by simpa using hpk
      have hpk' : (p.1 == k') = false := by simp [hp]; simpa using hne
      simp [alGet, List.find?, hk, hpk']
    · rename_i hpk
      cases hp : (p.1 == k') with
      | true => simp [alGet, List.find?, hp]
      | false =>
        simp only [alGet, List.find?, hp]
        exact ih

theorem countOf_bump_self (l : List (String × Nat)) (k : String) :
    countOf (bump l k) k = countOf l k + 1 := by
  unfold bump
  cases h : alGet l k with
  | none => simp [countOf, alGet_alSet_self, h]
  | some n => simp [countOf, alGet_alSet_self, h]

theorem countOf_bump_ne (l : List (String × Nat)) (k k' : String) (h : k ≠ k') :
    countOf (bump l k) k' = countOf l k' := by
  unfold bump
  cases halg : alGet l k with
  | none => simp [countOf, alGet_alSet_ne _ _ _ _ h]
  | some n => simp [countOf, alGet_alSet_ne _ _ _ _ h]

/-! ## Claims about the query normalizer (C5, C6) -/

/-- **C5, counterexample.**  The claim says the normalizer's output is
never the empty string for inputs whose tokens are all stop-words.  The
empty input has no tokens at all (so the all-stop-words hypothesis holds
vacuously), yet `extract_keywords ""` is the empty string. -/
theorem claim_C5_counterexample :
    extract_keywords "" = "" ∧
    ∀ w ∈ pySplit (pyLower ""),
      stop_words.contains (pyLower (pyStrip stripChars w)) = true :=
  ⟨rfl, by decide⟩

/-- **C5, amended.**  For every input whose tokens are all stop-words
(after stripping `?,.!` and lower-casing for the membership test), the
normalizer returns the original raw input unchanged; and for every
NONEMPTY input the output is nonempty (only the empty raw input produces
an empty output). -/
theorem claim_C5_amended (text : String) :
    ((∀ w ∈ pySplit (pyLower text),
        stop_words.contains (pyLower (pyStrip stripChars w)) = true) →
      extract_keywords text = text) ∧
    (text ≠ "" → extract_keywords text ≠ "") := by
  constructor
  · intro hall
    have hkw : keywords_of text = [] := by
      apply List.filter_eq_nil_iff.mpr
      intro w hw
      simp only [Bool.not_eq_true, Bool.not_eq_false']
      exact hall w hw
    simp [extract_keywords, hkw]
  · intro htext
    by_cases hkw : keywords_of text = []
    · simpa [extract_keywords, hkw] using htext
    · cases hk : keywords_of text with
      | nil => exact absurd hk hkw
      | cons k rest =>
        have hkmem : k ∈ pySplit (pyLower text) := by
          have : k ∈ keywords_of text := by rw [hk]; exact List.mem_cons_self _ _
          exact List.mem_of_mem_filter this
        have hkne : k ≠ "" := pySplit_ne_nil _ k hkmem
        simpa [extract_keywords, hk] using pyJoin_space_ne_empty k rest hkne

/-- **C5, witness** for the amended theorem: a concrete all-stop-word
input comes back unchanged, and a concrete nonempty input yields a
nonempty output. -/
theorem claim_C5_witness :
    extract_keywords "the of and" = "the of and" ∧ extract_keywords "tax" ≠ "" :=
  ⟨(claim_C5_amended "the of and").1 (by decide), (claim_C5_amended "tax").2 (by decide)⟩

/-- **C6.**  For every input with at least one surviving token, the
normalizer's output is the single-space join of the surviving tokens,
each token taken verbatim from the whitespace split performed by the
normalizer (whose casing is the split's casing, the input having been
lower-cased before the split per the algorithm); the stripped,
lower-cased form of a token is used only for the stop-word membership
test and never appears in the output. -/
theorem claim_C6 (text : String) (h : keywords_of text ≠ []) :
    extract_keywords text = pyJoin " " (keywords_of text) ∧
    (keywords_of text).Sublist (pySplit (pyLower text)) ∧
    (∀ w ∈ pySplit (pyLower text),
      (w ∈ keywords_of text ↔
        stop_words.contains (pyLower (pyStrip stripChars w)) = false)) := by
  refine ⟨by simp [extract_keywords, h], List.filter_sublist _, ?_⟩
  intro w hw
  constructor
  · intro hmem
    simpa using List.of_mem_filter hmem
  · intro hcontains
    exact List.mem_filter.mpr ⟨hw, by simpa using hcontains⟩

theorem strictPass_isSome_iff (kw dt extra body : String) :
    (strictPass kw dt extra body).isSome = true ↔
    ∃ w ∈ candidate_windows body,
      score_window dt extra kw w = (pySplit (pyLower kw)).length := by
  unfold strictPass candidate_windows
  simp only []
  split
  · by_cases hsc : score_window dt extra kw body = (pySplit (pyLower kw)).length
    · simp [hsc]
    · simp [hsc]
  · constructor
    · intro hs
      rw [List.findSome?_isSome_iff] at hs
      obtain ⟨i, hi, hfi⟩ := hs
      refine ⟨pyJoin " " (((split_sentences body).drop i).take 3),
        List.mem_map_of_mem _ hi, ?_⟩
      by_contra hne
      simp only [hne] at hfi
      simp at hfi
    · rintro ⟨w, hw, hsc⟩
      rw [List.findSome?_isSome_iff]
      obtain ⟨i, hi, rfl⟩ := List.mem_map.mp hw
      exact ⟨i, hi, by simp [hsc]⟩

theorem candidate_windows_ne_nil (body : String) : candidate_windows body ≠ [] := by
  simp only [candidate_windows]
  split
  · simp
  · rename_i h3
    have h4 : 4 ≤ (split_sentences body).length := by omega
    simp only [ne_eq, List.map_eq_nil_iff, List.range_eq_nil]
    omega

theorem itemTier_eq_strict_iff (kw extra : String) (it : Item) :
    itemTier kw extra it = MatchTier.Strict ↔
    ∃ w ∈ candidate_windows (it.body.getD ""),
      score_window (it.parent_body.getD "") extra kw w = (pySplit (pyLower kw)).length := by
  rw [← strictPass_isSome_iff]
  unfold itemTier
  split
  · rename_i hs
    simp [hs]
  · rename_i hs
    simp only [Bool.not_eq_true] at hs
    simp [hs]

theorem itemTier_cases (kw extra : String) (it : Item) :
    itemTier kw extra it = MatchTier.Strict ∨ itemTier kw extra it = MatchTier.Loose := by
  unfold itemTier
  split
  · exact Or.inl rfl
  · exact Or.inr rfl

theorem itemTier_ne_fuzzy (kw extra : String) (it : Item) :
    itemTier kw extra it ≠ MatchTier.Fuzzy := by
  rcases itemTier_cases kw extra it with h | h <;> simp [h]

theorem processItem_counts (kw extra : String) (st : AggState) (it : Item) (name : String)
    (h : resolveName it = some name) :
    (itemTier kw extra it = MatchTier.Strict →
      (processItem kw extra st it).strict_counts = bump st.strict_counts name ∧
      (processItem kw extra st it).loose_counts = st.loose_counts) ∧
    (itemTier kw extra it = MatchTier.Loose →
      (processItem kw extra st it).loose_counts = bump st.loose_counts name ∧
      (processItem kw extra st it).strict_counts = st.strict_counts) := by
  unfold processItem itemTier
  rw [h]
  cases hsp : strictPass kw (it.parent_body.getD "") extra (it.body.getD "") with
  | some snip => simp [hsp]
  | none => simp [hsp]

/-! ## Claims about the relevance scorer (C2) -/

/-- **C2, counterexample.**  The claim says the score counts DISTINCT
keyword terms.  The code counts occurrences over the whitespace split
with multiplicity: for the keyword string `"tax tax brexit"` (3 terms,
2 distinct matched occurrences of `"tax"`, 1 distinct matched term) and
a window containing only `"tax"`, the code's score is 2 (fraction 2/3),
while a distinct-term count would give 1 (fraction 1/3, or 1/2 over the
2 distinct terms) — none of which equals 2/3. -/
theorem claim_C2_counterexample :
    score_window "" "" "tax tax brexit" "raise the tax now" = 2 ∧
    score_window_distinct "" "" "tax tax brexit" "raise the tax now" = 1 ∧
    (pySplit (pyLower "tax tax brexit")).length = 3 ∧
    score_frac "" "" "tax tax brexit" "raise the tax now" = 2 / 3 ∧
    ((2 : ℚ) / 3 ≠ 1 / 3 ∧ (2 : ℚ) / 3 ≠ 1 / 2) := by
  have h1 : score_window "" "" "tax tax brexit" "raise the tax now" = 2 := by decide
  have h2 : (pySplit (pyLower "tax tax brexit")).length = 3 := by decide
  refine ⟨h1, by decide, h2, ?_, by norm_num, by norm_num⟩
  simp only [score_frac, h1, h2]
  norm_num

/-- **C2, amended.**  The relevance score counts the keyword terms of
the whitespace split WITH MULTIPLICITY (a repeated term counts once per
occurrence), each occurrence counting iff the term is a case-insensitive
substring of `debate_title + " " + window + " " + extra_context_title`;
as a fraction of the total number of terms it lies in [0,1], is exactly
1 when every term occurs in the window's context (and there is at least
one term), and is 0 for an empty keyword string. -/
theorem claim_C2_amended (dt extra kw w : String) :
    score_window dt extra kw w ≤ (pySplit (pyLower kw)).length ∧
    0 ≤ score_frac dt extra kw w ∧
    score_frac dt extra kw w ≤ 1 ∧
    (pySplit (pyLower kw) ≠ [] →
      (∀ t ∈ pySplit (pyLower kw),
        substrB t.data (pyLower (dt ++ " " ++ w ++ " " ++ extra)).data = true) →
      score_frac dt extra kw w = 1) ∧
    (pySplit (pyLower kw) = [] → score_frac dt extra kw w = 0) ∧
    score_frac dt extra kw w =
      (if (pySplit (pyLower kw)).length = 0 then 0
       else (score_window dt extra kw w : ℚ) / ((pySplit (pyLower kw)).length : ℚ)) := by
  have hle : score_window dt extra kw w ≤ (pySplit (pyLower kw)).length :=
    List.countP_le_length _
  refine ⟨hle, ?_, ?_, ?_, ?_, rfl⟩
  · simp only [score_frac]
    split
    · norm_num
    · positivity
  · simp only [score_frac]
    split
    · norm_num
    · rename_i hn
      rw [div_le_one (by positivity)]
      exact_mod_cast hle
  · intro hne hall
    have hn : (pySplit (pyLower kw)).length ≠ 0 := by
      simpa [List.length_eq_zero] using hne
    have hcount : score_window dt extra kw w = (pySplit (pyLower kw)).length := by
      simp only [score_window]
      exact List.countP_eq_length.mpr hall
    simp only [score_frac, hn, if_false, hcount]
    rw [div_self (by exact_mod_cast hn)]
  · intro hnil
    simp [score_frac, hnil]

/-- **C2, witness** for the amended theorem: with keyword string
`"tax brexit"` and a window containing both terms, the fractional score
is exactly 1, and the raw count is bounded by the number of terms. -/
theorem claim_C2_witness :
    score_frac "" "" "tax brexit" "we debate tax and brexit" = 1 ∧
    score_window "" "" "tax brexit" "we debate tax and brexit" ≤
      (pySplit (pyLower "tax brexit")).length :=
  ⟨(claim_C2_amended "" "" "tax brexit" "we debate tax and brexit").2.2.2.1
      (by decide) (by decide),
   (claim_C2_amended "" "" "tax brexit" "we debate tax and brexit").1⟩

theorem insDesc_perm (x : String × Nat) : ∀ m, (insDesc x m).Perm (x :: m) := by
  intro m
  induction m with
  | nil => simp [insDesc]
  | cons y ys ih =>
    simp only [insDesc]
    split
    · exact (ih.cons y).trans (List.Perm.swap x y ys)
    · exact List.Perm.refl _

theorem mem_insDesc {x z : String × Nat} {m : List (String × Nat)} :
    z ∈ insDesc x m ↔ z = x ∨ z ∈ m := by
  rw [(insDesc_perm x m).mem_iff]
  simp

theorem isortDesc_perm : ∀ l : List (String × Nat), (isortDesc l).Perm l := by
  intro l
  induction l with
  | nil => simp [isortDesc]
  | cons x xs ih =>
    simp only [isortDesc]
    exact (insDesc_perm x _).trans (ih.cons x)

theorem insDesc_pairwise (x : String × Nat) (xs : List (String × Nat)) :
    ∀ m : List (String × Nat),
    m.Pairwise (fun p q => q.2 < p.2 ∨ (p.2 = q.2 ∧ [p, q].Sublist xs)) →
    (∀ z ∈ m, z ∈ xs) →
    (insDesc x m).Pairwise
      (fun p q => q.2 < p.2 ∨ (p.2 = q.2 ∧ [p, q].Sublist (x :: xs))) := by
  intro m
  induction m with
  | nil =>
    intro _ _
    simp [insDesc]
  | cons y ys ih =>
    intro hm hz
    rw [List.pairwise_cons] at hm
    obtain ⟨hy, hys⟩ := hm
    simp only [insDesc]
    split
    · rename_i hlt
      rw [List.pairwise_cons]
      constructor
      · intro z hzmem
        rcases mem_insDesc.mp hzmem with rfl | hzys
        · exact Or.inl hlt
        · rcases hy z hzys with hlt2 | ⟨he, hsub⟩
          · exact Or.inl hlt2
          · exact Or.inr ⟨he, hsub.cons x⟩
      · exact ih hys (fun z hz2 => hz z (List.mem_cons_of_mem y hz2))
    · rename_i hge
      push_neg at hge
      rw [List.pairwise_cons]
      constructor
      · intro z hzmem
        have hzx : z.2 ≤ x.2 := by
          rcases List.mem_cons.mp hzmem with rfl | hzys
          · exact hge
          · rcases hy z hzys with hlt2 | ⟨he, _⟩
            · exact le_trans (le_of_lt hlt2) hge
            · exact he ▸ hge
        rcases lt_or_eq_of_le hzx with hlt2 | he
        · exact Or.inl hlt2
        · exact Or.inr ⟨he.symm, (List.singleton_sublist.mpr (hz z hzmem)).cons₂ x⟩
      · refine List.Pairwise.imp ?_ (List.pairwise_cons.mpr ⟨hy, hys⟩)
        rintro p q (hlt2 | ⟨he, hsub⟩)
        · exact Or.inl hlt2
        · exact Or.inr ⟨he, hsub.cons x⟩

theorem isortDesc_pairwise (l : List (String × Nat)) :
    (isortDesc l).Pairwise (fun p q => q.2 < p.2 ∨ (p.2 = q.2 ∧ [p, q].Sublist l)) := by
  induction l with
  | nil => simp [isortDesc]
  | cons x xs ih =>
    simp only [isortDesc]
    exact insDesc_pairwise x xs (isortDesc xs) ih
      (fun z hz => (isortDesc_perm xs).mem_iff.mp hz)

/-! ## Claim about the ranker (C3) -/

/-- **C3.**  The ranked output is always drawn from the first non-empty
tier in priority order (Strict before Loose; the code maintains no Fuzzy
tier, so the spec's Strict→Fuzzy→Loose priority degenerates to
Strict→Loose), with the fixed no-matches message exactly when both tiers
are empty; within the chosen tier the pairs are sorted by count
descending with ties in first-encountered order, truncated to at most 5
entries. -/
theorem claim_C3 (strict loose : List (String × Nat)) :
    (decideResults strict loose = none ↔ strict = [] ∧ loose = []) ∧
    (∀ out t, decideResults strict loose = some (out, t) →
      ∃ src, ((t = MatchTier.Strict ∧ src = strict ∧ strict ≠ []) ∨
              (t = MatchTier.Loose ∧ src = loose ∧ loose ≠ [] ∧ strict = [])) ∧
        out = (isortDesc src).take 5 ∧
        out.length ≤ 5 ∧
        (∀ p ∈ out, p ∈ src) ∧
        out.Pairwise (fun p q => q.2 < p.2 ∨ (p.2 = q.2 ∧ [p, q].Sublist src))) ∧
    (∀ webmsg kw ai di, strict = [] → loose = [] →
      decide_and_render webmsg kw ai di strict loose =
        Except.ok (noMatchesMsg webmsg kw)) := by
  refine ⟨?_, ?_, ?_⟩
  · unfold decideResults
    by_cases hs : strict = [] <;> by_cases hl : loose = [] <;> simp [hs, hl]
  · intro out t hsome
    unfold decideResults at hsome
    split_ifs at hsome with hs hl
    · rw [Option.some_inj] at hsome
      obtain ⟨hout, ht⟩ := Prod.mk.injEq .. ▸ hsome
      refine ⟨strict, Or.inl ⟨ht.symm ▸ rfl, rfl, hs⟩, hout.symm ▸ rfl, ?_, ?_, ?_⟩
      · exact hout ▸ List.length_take_le 5 _
      · intro p hp
        rw [← hout] at hp
        exact (isortDesc_perm strict).mem_iff.mp (List.mem_of_mem_take hp)
      · exact hout ▸ List.Pairwise.sublist (List.take_sublist 5 _) (isortDesc_pairwise strict)
    · rw [Option.some_inj] at hsome
      obtain ⟨hout, ht⟩ := Prod.mk.injEq .. ▸ hsome
      push_neg at hs
      refine ⟨loose, Or.inr ⟨ht.symm ▸ rfl, rfl, hl, hs⟩, hout.symm ▸ rfl, ?_, ?_, ?_⟩
      · exact hout ▸ List.length_take_le 5 _
      · intro p hp
        rw [← hout] at hp
        exact (isortDesc_perm loose).mem_iff.mp (List.mem_of_mem_take hp)
      · exact hout ▸ List.Pairwise.sublist (List.take_sublist 5 _) (isortDesc_pairwise loose)
  · intro webmsg kw ai di hs hl
    subst hs
    subst hl
    rfl

/-- **C3, witness**: a concrete non-empty strict tier beats a non-empty
loose tier, its output sorted descending and drawn from the strict
counts; and with both tiers empty the fixed no-matches message is
returned. -/
theorem claim_C3_witness :
    decideResults [("A", 1), ("B", 2)] [("C", 3)] =
      some ([("B", 2), ("A", 1)], MatchTier.Strict) ∧
    (∀ p ∈ [("B", 2), ("A", 1)], p ∈ [("A", 1), ("B", 2)]) ∧
    decide_and_render "" "q" "" [] [] [] = Except.ok (noMatchesMsg "" "q") := by
  have h := claim_C3 [("A", 1), ("B", 2)] [("C", 3)]
  refine ⟨by decide, ?_, (claim_C3 [] []).2.2 "" "q" "" [] rfl rfl⟩
  obtain ⟨src, hsrc, _, _, hmem, _⟩ := h.2.1 [("B", 2), ("A", 1)] MatchTier.Strict (by decide)
  rcases hsrc with ⟨_, rfl, _⟩ | ⟨hfalse, _⟩
  · exact hmem
  · exact absurd hfalse (by decide)

/-! ## The aggregation invariant (C4) -/

theorem processItem_eq (kw extra : String) (st : AggState) (it : Item) (name : String)
    (hres : resolveName it = some name) :
    processItem kw extra st it =
      match strictPass kw (it.parent_body.getD "") extra (it.body.getD "") with
      | some best_snippet =>
        ⟨bump st.strict_counts name, st.loose_counts,
         match alGet st.debate_info name with
         | none => alSet st.debate_info name
             ⟨"https://www.theyworkforyou.com" ++ it.listurl.getD "", best_snippet,
              it.parent_body.getD "", MatchTier.Strict, itemParty it, itemConstituency it⟩
         | some p =>
           if p.type = MatchTier.Loose then
             alSet st.debate_info name
               ⟨"https://www.theyworkforyou.com" ++ it.listurl.getD "", best_snippet,
                it.parent_body.getD "", MatchTier.Strict, itemParty it, itemConstituency it⟩
           else st.debate_info⟩
      | none =>
        ⟨st.strict_counts, bump st.loose_counts name,
         match alGet st.debate_info name with
         | none => alSet st.debate_info name
             ⟨"https://www.theyworkforyou.com" ++ it.listurl.getD "",
              pyTake 200 (it.body.getD "") ++ "...", it.parent_body.getD "",
              MatchTier.Loose, itemParty it, itemConstituency it⟩
         | some _ => st.debate_info⟩ := by
  unfold processItem
  rw [hres]

theorem alGet_processItem_debate_info_ne (kw extra : String) (st : AggState) (it : Item)
    (n name : String) (hres : resolveName it = some n) (hne : name ≠ n) :
    alGet (processItem kw extra st it).debate_info name = alGet st.debate_info name := by
  rw [processItem_eq kw extra st it n hres]
  cases hsp : strictPass kw (it.parent_body.getD "") extra (it.body.getD "") with
  | some snip =>
    dsimp only
    cases halg : alGet st.debate_info n with
    | none => exact alGet_alSet_ne _ _ _ _ (fun h => hne h.symm)
    | some p =>
      dsimp only
      by_cases hpt : p.type = MatchTier.Loose
      · rw [if_pos hpt]
        exact alGet_alSet_ne _ _ _ _ (fun h => hne h.symm)
      · rw [if_neg hpt]
  | none =>
    dsimp only
    cases halg : alGet st.debate_info n with
    | none => exact alGet_alSet_ne _ _ _ _ (fun h => hne h.symm)
    | some p => rfl

theorem bestTier?_append_singleton (ts : List MatchTier) (t : MatchTier) :
    bestTier? (ts ++ [t]) = some ((bestTier? ts).elim t (fun b => tmax b t)) := by
  simp [bestTier?, List.foldl_append]

theorem processAll_append (kw extra : String) (l : List Item) (it : Item) :
    processAll kw extra (l ++ [it]) = processItem kw extra (processAll kw extra l) it := by
  simp [processAll, List.foldl_append]

theorem processAll_debate_invariant (kw extra : String) (items : List Item) (name : String) :
    (alGet (processAll kw extra items).debate_info name = none ↔
      items.filter (fun it => resolveName it == some name) = []) ∧
    (∀ p, alGet (processAll kw extra items).debate_info name = some p →
      (p.type = MatchTier.Strict ∨ p.type = MatchTier.Loose) ∧
      bestTier? ((items.filter (fun it => resolveName it == some name)).map
        (itemTier kw extra)) = some p.type) := by
  induction items using List.reverseRecOn with
  | nil =>
    constructor
    · simp [processAll, initState, alGet]
    · intro p hp
      simp [processAll, initState, alGet] at hp
  | append_singleton l it ih =>
    rw [processAll_append]
    cases hres : resolveName it with
    | none =>
      have hpred : (resolveName it == some name) = false := by simp [hres]
      have hstep : processItem kw extra (processAll kw extra l) it = processAll kw extra l := by
        unfold processItem
        rw [hres]
      have hfil : (l ++ [it]).filter (fun i => resolveName i == some name) =
          l.filter (fun i => resolveName i == some name) := by
        simp [List.filter_append, hpred]
      rw [hstep, hfil]
      exact ih
    | some n =>
      by_cases hname : n = name
      · subst hname
        have hfil : (l ++ [it]).filter (fun i => resolveName i == some n) =
            l.filter (fun i => resolveName i == some n) ++ [it] := by
          simp [List.filter_append, hres]
        rw [hfil, List.map_append]
        rw [processItem_eq kw extra _ it n hres]
        cases hsp : strictPass kw (it.parent_body.getD "") extra (it.body.getD "") with
        | some snip =>
          have htier : itemTier kw extra it = MatchTier.Strict := by
            simp [itemTier, hsp]
          dsimp only
          cases halg : alGet (processAll kw extra l).debate_info n with
          | none =>
            have hfl : l.filter (fun i => resolveName i == some n) = [] := ih.1.mp halg
            dsimp only
            rw [hfl]
            constructor
            · constructor
              · intro h
                rw [alGet_alSet_self] at h
                exact absurd h (by simp)
              · intro h
                exact absurd h (by simp)
            · intro p hp
              rw [alGet_alSet_self, Option.some_inj] at hp
              subst hp
              refine ⟨Or.inl rfl, ?_⟩
              simp [htier, bestTier?]
          | some p0 =>
            obtain ⟨hp0c, hbest0⟩ := ih.2 p0 halg
            dsimp only
            by_cases hpt : p0.type = MatchTier.Loose
            · rw [if_pos hpt]
              constructor
              · constructor
                · intro h
                  rw [alGet_alSet_self] at h
                  exact absurd h (by simp)
                · intro h
                  exact absurd h (by simp)
              · intro p hp
                rw [alGet_alSet_self, Option.some_inj] at hp
                subst hp
                refine ⟨Or.inl rfl, ?_⟩
                simp only [List.map_cons, List.map_nil, htier]
                rw [bestTier?_append_singleton, hbest0]
                simp [hpt, tmax, rank]
            · rw [if_neg hpt]
              have hp0s : p0.type = MatchTier.Strict := by
                rcases hp0c with h | h
                · exact h
                · exact absurd h hpt
              constructor
              · constructor
                · intro h
                  rw [halg] at h
                  exact absurd h (by simp)
                · intro h
                  exact absurd h (by simp)
              · intro p hp
                rw [halg, Option.some_inj] at hp
                subst hp
                refine ⟨hp0c, ?_⟩
                simp only [List.map_cons, List.map_nil, htier]
                rw [bestTier?_append_singleton, hbest0]
                simp [hp0s, tmax, rank]
        | none =>
          have htier : itemTier kw extra it = MatchTier.Loose := by
            simp [itemTier, hsp]
          dsimp only
          cases halg : alGet (processAll kw extra l).debate_info n with
          | none =>
            have hfl : l.filter (fun i => resolveName i == some n) = [] := ih.1.mp halg
            dsimp only
            rw [hfl]
            constructor
            · constructor
              · intro h
                rw [alGet_alSet_self] at h
                exact absurd h (by simp)
              · intro h
                exact absurd h (by simp)
            · intro p hp
              rw [alGet_alSet_self, Option.some_inj] at hp
              subst hp
              refine ⟨Or.inr rfl, ?_⟩
              simp [htier, bestTier?]
          | some p0 =>
            obtain ⟨hp0c, hbest0⟩ := ih.2 p0 halg
            dsimp only
            constructor
            · constructor
              · intro h
                rw [halg] at h
                exact absurd h (by simp)
              · intro h
                exact absurd h (by simp)
            · intro p hp
              rw [halg, Option.some_inj] at hp
              subst hp
              refine ⟨hp0c, ?_⟩
              simp only [List.map_cons, List.map_nil, htier]
              rw [bestTier?_append_singleton, hbest0]
              rcases hp0c with h | h <;> simp [h, tmax, rank]
      · have hpred : (resolveName it == some name) = false := by
          simp [hres]
          exact hname
        have hfil : (l ++ [it]).filter (fun i => resolveName i == some name) =
            l.filter (fun i => resolveName i == some name) := by
          simp [List.filter_append, hpred]
        have hag : alGet (processItem kw extra (processAll kw extra l) it).debate_info name =
            alGet (processAll kw extra l).debate_info name :=
          alGet_processItem_debate_info_ne kw extra _ it n name hres (fun h => hname h.symm)
        rw [hfil, hag]
        exact ih

/-- **C4.**  For every record sequence and speaker: (a) a stored
representative payload is replaced only when the incoming record's tier
strictly outranks it under Strict > Fuzzy > Loose (otherwise it is kept
verbatim — the stored tier never downgrades); (b) after processing any
sequence from the empty state, the stored payload's tier is the best
tier (under that order) among all of that speaker's records. -/
theorem claim_C4 (kw extra : String) :
    (∀ (st : AggState) (it : Item) (name : String) (p : Payload),
      alGet st.debate_info name = some p →
      ∃ p', alGet (processItem kw extra st it).debate_info name = some p' ∧
        (p' = p ∨ rank p.type < rank p'.type)) ∧
    (∀ (items : List Item) (name : String) (p : Payload),
      alGet (processAll kw extra items).debate_info name = some p →
      bestTier? ((items.filter (fun it => resolveName it == some name)).map
        (itemTier kw extra)) = some p.type) := by
  constructor
  · intro st it name p hp
    cases hres : resolveName it with
    | none =>
      have hstep : processItem kw extra st it = st := by
        unfold processItem
        rw [hres]
      exact ⟨p, by rw [hstep]; exact hp, Or.inl rfl⟩
    | some n =>
      by_cases hname : name = n
      · subst hname
        rw [processItem_eq kw extra st it name hres]
        cases hsp : strictPass kw (it.parent_body.getD "") extra (it.body.getD "") with
        | some snip =>
          dsimp only
          rw [hp]
          dsimp only
          by_cases hpt : p.type = MatchTier.Loose
          · rw [if_pos hpt]
            refine ⟨_, alGet_alSet_self _ _ _, Or.inr ?_⟩
            rw [hpt]
            simp [rank]
          · rw [if_neg hpt]
            exact ⟨p, hp, Or.inl rfl⟩
        | none =>
          dsimp only
          rw [hp]
          exact ⟨p, hp, Or.inl rfl⟩
      · have hag := alGet_processItem_debate_info_ne kw extra st it n name hres hname
        exact ⟨p, by rw [hag]; exact hp, Or.inl rfl⟩
  · intro items name p hp
    exact ((processAll_debate_invariant kw extra items name).2 p hp).2

/-- **C4, witness**: processing a loose then a strict record for the
same speaker, the stored Loose payload is upgraded (step half at the
intermediate state), and the final stored tier is the best tier of the
two records (Strict). -/
theorem claim_C4_witness :
    (∃ p', alGet (processItem "tax" "" (processAll "tax" "" [looseItemA])
        strictItemA).debate_info "Ada Lovelace" = some p' ∧
      (p' = pLooseA ∨ rank pLooseA.type < rank p'.type)) ∧
    bestTier? (([looseItemA, strictItemA].filter
        (fun it => resolveName it == some "Ada Lovelace")).map (itemTier "tax" "")) =
      some pStrictA.type :=
  ⟨(claim_C4 "tax" "").1 (processAll "tax" "" [looseItemA]) strictItemA "Ada Lovelace" pLooseA
      (by decide),
   (claim_C4 "tax" "").2 [looseItemA, strictItemA] "Ada Lovelace" pStrictA (by decide)⟩

/-! ## Claims about tier classification (C1, C10) -/

/-- **C1, counterexample.**  The claim says a record whose score lies in
[0.5, 1.0) is classified into the Fuzzy tier.  `c1Item` scores exactly
1/2 against `"tax brexit"`, yet the code classifies it Loose: `main.py`
has no Fuzzy tier at all (only `strict_counts` and `loose_counts`). -/
theorem claim_C1_counterexample :
    resolveName c1Item = some "Jo Smith" ∧
    candidate_windows (c1Item.body.getD "") = [c1Item.body.getD ""] ∧
    score_frac "" "" "tax brexit" (c1Item.body.getD "") = 1 / 2 ∧
    ((1 : ℚ) / 2 ≥ 1 / 2 ∧ (1 : ℚ) / 2 < 1) ∧
    itemTier "tax brexit" "" c1Item = MatchTier.Loose ∧
    MatchTier.Loose ≠ MatchTier.Fuzzy := by
  have h1 : score_window "" "" "tax brexit" (c1Item.body.getD "") = 1 := by decide
  have h2 : (pySplit (pyLower "tax brexit")).length = 2 := by decide
  refine ⟨by decide, by decide, ?_, ⟨by norm_num, by norm_num⟩, by decide, by decide⟩
  simp only [score_frac, h1, h2]
  norm_num

/-- **C1, amended.**  For every record with a resolvable speaker name,
the record is classified into exactly one of TWO tiers — Strict when
some candidate window's score equals the total number of keyword terms
(all terms present; with zero terms this holds vacuously), Loose
otherwise; there is no Fuzzy tier — and exactly one tier-specific
counter for that speaker is incremented by one, all other counters
unchanged. -/
theorem claim_C1_amended (kw extra : String) (st : AggState) (it : Item) (name : String)
    (h : resolveName it = some name) :
    (itemTier kw extra it = MatchTier.Strict ∨ itemTier kw extra it = MatchTier.Loose) ∧
    itemTier kw extra it ≠ MatchTier.Fuzzy ∧
    (itemTier kw extra it = MatchTier.Strict ↔
      ∃ w ∈ candidate_windows (it.body.getD ""),
        score_window (it.parent_body.getD "") extra kw w = (pySplit (pyLower kw)).length) ∧
    ((itemTier kw extra it = MatchTier.Strict →
        countOf (processItem kw extra st it).strict_counts name =
          countOf st.strict_counts name + 1 ∧
        (processItem kw extra st it).loose_counts = st.loose_counts) ∧
     (itemTier kw extra it = MatchTier.Loose →
        countOf (processItem kw extra st it).loose_counts name =
          countOf st.loose_counts name + 1 ∧
        (processItem kw extra st it).strict_counts = st.strict_counts)) ∧
    (∀ other : String, other ≠ name →
      countOf (processItem kw extra st it).strict_counts other =
        countOf st.strict_counts other ∧
      countOf (processItem kw extra st it).loose_counts other =
        countOf st.loose_counts other) := by
  have hc := processItem_counts kw extra st it name h
  refine ⟨itemTier_cases kw extra it, itemTier_ne_fuzzy kw extra it,
    itemTier_eq_strict_iff kw extra it, ⟨?_, ?_⟩, ?_⟩
  · intro hs
    obtain ⟨h1, h2⟩ := hc.1 hs
    exact ⟨by rw [h1, countOf_bump_self], h2⟩
  · intro hl
    obtain ⟨h1, h2⟩ := hc.2 hl
    exact ⟨by rw [h1, countOf_bump_self], h2⟩
  · intro other hother
    rcases itemTier_cases kw extra it with hs | hl
    · obtain ⟨h1, h2⟩ := hc.1 hs
      exact ⟨by rw [h1, countOf_bump_ne _ _ _ (Ne.symm hother)], by rw [h2]⟩
    · obtain ⟨h1, h2⟩ := hc.2 hl
      exact ⟨by rw [h2], by rw [h1, countOf_bump_ne _ _ _ (Ne.symm hother)]⟩

/-- **C1, witness** for the amended theorem at a concrete strict
record. -/
theorem claim_C1_witness :
    itemTier "tax" "" c1WitnessItem = MatchTier.Strict ∧
    countOf (processItem "tax" "" initState c1WitnessItem).strict_counts "Ada Lovelace" =
      countOf initState.strict_counts "Ada Lovelace" + 1 ∧
    (processItem "tax" "" initState c1WitnessItem).loose_counts = initState.loose_counts := by
  have h := claim_C1_amended "tax" "" initState c1WitnessItem "Ada Lovelace" (by decide)
  have hstrict : itemTier "tax" "" c1WitnessItem = MatchTier.Strict := by decide
  exact ⟨hstrict, (h.2.2.2.1.1 hstrict).1, (h.2.2.2.1.1 hstrict).2⟩

/-- **C10.**  When the normalized keyword string splits into zero terms,
the all-terms-present check compares 0 with 0 and succeeds, so every
record with a resolvable speaker name lands in the Strict tier (never
Loose) and the speaker's strict counter is incremented. -/
theorem claim_C10 (kw extra : String) (it : Item) (name : String) (st : AggState)
    (hkw : pySplit (pyLower kw) = []) (hname : resolveName it = some name) :
    itemTier kw extra it = MatchTier.Strict ∧
    countOf (processItem kw extra st it).strict_counts name =
      countOf st.strict_counts name + 1 ∧
    (processItem kw extra st it).loose_counts = st.loose_counts := by
  have hstrict : itemTier kw extra it = MatchTier.Strict := by
    rw [itemTier_eq_strict_iff]
    obtain ⟨w, hw⟩ := List.exists_mem_of_ne_nil _ (candidate_windows_ne_nil (it.body.getD ""))
    refine ⟨w, hw, ?_⟩
    simp [score_window, hkw]
  obtain ⟨h1, h2⟩ := (processItem_counts kw extra st it name hname).1 hstrict
  exact ⟨hstrict, by rw [h1, countOf_bump_self], h2⟩

/-- **C10, witness**: with the empty raw query (whose keyword string has
zero terms) a concrete record is classified Strict. -/
theorem claim_C10_witness :
    itemTier "" "" c10Item = MatchTier.Strict ∧
    countOf (processItem "" "" initState c10Item).strict_counts "Grace Hopper" =
      countOf initState.strict_counts "Grace Hopper" + 1 ∧
    (processItem "" "" initState c10Item).loose_counts = initState.loose_counts :=
  claim_C10 "" "" c10Item "Grace Hopper" initState (by decide) (by decide)

/-- **C6, witness** at a concrete input: the token `"brexit?"` survives
with its punctuation intact (its stripped form `"brexit"` was only used
for the membership test). -/
theorem claim_C6_witness :
    extract_keywords "Brexit? Policy" = pyJoin " " (keywords_of "Brexit? Policy") ∧
    (keywords_of "Brexit? Policy").Sublist (pySplit (pyLower "Brexit? Policy")) ∧
    (∀ w ∈ pySplit (pyLower "Brexit? Policy"),
      (w ∈ keywords_of "Brexit? Policy" ↔
        stop_words.contains (pyLower (pyStrip stripChars w)) = false)) :=
  claim_C6 "Brexit? Policy" (by decide)

/-! ## Claims about the error boundary (C7, C8, C9) -/

/-- **C7, counterexample.**  The claim says the search-API call applies
a bounded timeout and that a timeout yields a message distinct from
other failures.  The code passes no `timeout` argument to
`requests.get` (the `requests` default of `None` waits indefinitely),
and its single `except Exception` handler returns the same generic
apology for a timeout as for a connection error. -/
theorem claim_C7_counterexample :
    (twfyRequest (some "KEY") (extract_keywords "tax")).timeout = none ∧
    search_theyworkforyou c7TimeoutArgs = genericApology ∧
    search_theyworkforyou c7ConnArgs = genericApology ∧
    search_theyworkforyou c7TimeoutArgs = search_theyworkforyou c7ConnArgs :=
  ⟨rfl, rfl, rfl, rfl⟩

/-- **C7, amended.**  The outbound search-API call applies NO timeout
(the `timeout` argument is absent, so the request may wait
indefinitely); when the request raises — timeout included — the query
returns the fixed generic apology message shared by every failure kind,
and does not raise. -/
theorem claim_C7_amended (key : Option String) (kw raw web extra ai : String) (e : PyError) :
    (twfyRequest key kw).timeout = none ∧
    attemptedRequest ⟨key, raw, web, extra, ApiOutcome.raises e, ai⟩ =
      some (twfyRequest key (extract_keywords raw)) ∧
    search_theyworkforyou ⟨key, raw, web, extra, ApiOutcome.raises e, ai⟩ =
      genericApology :=
  ⟨rfl, rfl, rfl⟩

/-- **C8, counterexample.**  The claim says a missing credential yields
a configuration-error message and no network call.  The code never
checks `TWFY_API_KEY`: with the credential absent the request is still
issued (with `key = None` among the parameters), and the caller receives
the ordinary response-path message (here the no-mentions message for an
empty `rows`), not a configuration error. -/
theorem claim_C8_counterexample :
    attemptedRequest c8Args = some (twfyRequest none "tax") ∧
    (twfyRequest none "tax").key = none ∧
    search_theyworkforyou c8Args = noMentionsMsg "" "tax" :=
  ⟨rfl, rfl, rfl⟩

/-- **C8, amended.**  When the search-API credential is absent, the
query attempt proceeds unchanged: the network call to the search API is
still made, with no key value, and the result of the query is exactly
what it would be with any configured key, for every outcome — no
configuration-error path exists. -/
theorem claim_C8_amended (k raw web extra ai : String) (out : ApiOutcome) :
    attemptedRequest ⟨none, raw, web, extra, out, ai⟩ =
      some (twfyRequest none (extract_keywords raw)) ∧
    (twfyRequest none (extract_keywords raw)).key = none ∧
    search_theyworkforyou ⟨none, raw, web, extra, out, ai⟩ =
      search_theyworkforyou ⟨some k, raw, web, extra, out, ai⟩ :=
  ⟨rfl, rfl, rfl⟩

/-- **C9.**  For every input configuration and every outcome of the
external calls — timeout, connection error, malformed JSON, or an
exception raised during result processing — `search_theyworkforyou`
resolves the query to a plain rendered string: either the successfully
built message, or the fixed generic apology; no exception escapes the
query boundary. -/
theorem claim_C9 (a : QueryArgs) :
    (∃ s, search_body a = Except.ok s ∧ search_theyworkforyou a = s) ∨
    (∃ e, search_body a = Except.error e ∧ search_theyworkforyou a = genericApology) := by
  cases h : search_body a with
  | ok s => exact Or.inl ⟨s, rfl, by simp [search_theyworkforyou, h]⟩
  | error e => exact Or.inr ⟨e, rfl, by simp [search_theyworkforyou, h]⟩
